import Mathlib

/-!
Shallow embedding of the snapjaw add-on manager (src/src/{signature,toc,mygit,snapjaw}.py)
and proofs about the claims of its specification.

Python strings are modelled as lists of characters (`Str`), since a Python `str`
is exactly a sequence of code points; file contents are lists of byte values.
The SHA-1 digest functions are abstract parameters (`Hf` for the per-file hash,
`Ht` for the top-level hash over the concatenated chunk stream): every theorem
is stated for arbitrary such functions, with hex-output hypotheses where the
code relies on a digest never containing the `|` separator.
-/

/-- Model of a Python `str`: a sequence of code points. -/
abbrev Str := List Char

/-- Model of a byte string (Python `bytes`): a list of byte values. -/
abbrev Bytes := List Nat

/-- The Python exceptions raised by the embedded code. -/
inductive PyErr where
  /-- Attribute lookup on an object lacking that attribute. -/
  | attributeError : PyErr
  /-- Python `ValueError` (bad unpacking, bad `int()` argument, directory not found). -/
  | valueError : PyErr
  /-- Python `RuntimeError('Invalid hash version')`. -/
  | runtimeError : PyErr
  /-- Python `TypeError` (operation on `None`). -/
  | typeError : PyErr
  /-- The `mygit.GitError` raised by a failed network operation. -/
  | gitError (msg : String) : PyErr
deriving DecidableEq

namespace Signature

/-- Python `s.split(sep)` for a one-character separator `sep`. -/
def pySplitChar (sep : Char) : Str → List Str
  | [] => [[]]
  | c :: cs =>
    if c = sep then [] :: pySplitChar sep cs
    else
      match pySplitChar sep cs with
      | [] => [[c]]
      | g :: gs => (c :: g) :: gs

/-- Core digit parsing of Python `int(str)`: a nonempty run of ASCII digits,
with single underscores allowed between digit groups (`int('1_0') = 10`).
Unicode digits, which CPython also accepts, are not modelled. -/
def pyDigitsGo (acc : Nat) : Str → Option Nat
  | [] => some acc
  | '_' :: c :: cs =>
    if c.isDigit then pyDigitsGo (acc * 10 + (c.toNat - 48)) cs else none
  | ['_'] => none
  | c :: cs =>
    if c.isDigit then pyDigitsGo (acc * 10 + (c.toNat - 48)) cs else none

/-- Nonempty digit sequence with underscore grouping, as accepted by `int()`. -/
def pyDigits : Str → Option Nat
  | [] => none
  | c :: cs => if c.isDigit then pyDigitsGo (c.toNat - 48) cs else none

/-- ASCII whitespace accepted (and stripped) by Python `int(str)`. -/
def isPySpace (c : Char) : Bool :=
  c = ' ' || c = '\t' || c = '\n' || c = '\r' || c = '\x0b' || c = '\x0c'

/-- Python `int(str)`: optional surrounding whitespace, optional sign, digits. -/
def pyInt (s : Str) : Option Int :=
  let t := (s.dropWhile isPySpace).reverse.dropWhile isPySpace |>.reverse
  match t with
  | '+' :: r => (pyDigits r).map Int.ofNat
  | '-' :: r => (pyDigits r).map (fun n => -(Int.ofNat n))
  | r => (pyDigits r).map Int.ofNat

mutual
/-- A directory tree: the files of the directory (name, raw bytes) in the
order the filesystem enumerates them, and its subdirectories likewise. -/
inductive FsTree where
  | node : List (Str × Bytes) → FsForest → FsTree

/-- The sibling subdirectories of one directory, in filesystem enumeration
order: each entry is a name together with the subtree behind it. -/
inductive FsForest where
  | nil : FsForest
  | cons : Str → FsTree → FsForest → FsForest
end

/-- The entries of a forest as a list, used to speak about reorderings. -/
def forestList : FsForest → List (Str × FsTree)
  | .nil => []
  | .cons n t rest => (n, t) :: forestList rest

/-- Lexicographic comparison of Python strings by code point. -/
def strLeb : Str → Str → Bool
  | [], _ => true
  | _ :: _, [] => false
  | a :: as, b :: bs => if a = b then strLeb as bs else Nat.blt a.toNat b.toNat

/-- The ordering used by Python `sorted` on strings. -/
def strLe (a b : Str) : Prop := strLeb a b = true

instance : DecidableRel strLe := fun a b =>
  inferInstanceAs (Decidable (strLeb a b = true))

/-- Python `sorted` on a list of strings (insertion sort is stable, like
Python's sort). -/
def sortStrs (l : List Str) : List Str := List.insertionSort strLe l

/-- Python `sorted` on `os.walk`'s filename list: files sorted by name. -/
def sortFiles (l : List (Str × Bytes)) : List (Str × Bytes) :=
  List.insertionSort (fun a b => strLe a.1 b.1) l

/-- The names of the subdirectories of one directory, in enumeration order
(the `subdirs` list yielded by `os.walk`). -/
def dirNames : FsForest → List Str
  | .nil => []
  | .cons n _ rest => n :: dirNames rest

/-- Joining the path so far and an entry name, as `os.path.join` does
(POSIX separator). -/
def joinRel (rel : Str) (name : Str) : Str :=
  if rel = [] then name else rel ++ '/' :: name

mutual
/-- The chunk stream `_get_dir_chunks_v2` yields for the subtree at relative
path `rel`: the sorted subdirectory names, then for each file in sorted order
its path relative to the fingerprinted root followed by the digest of its
bytes, then the chunks of each subdirectory — in filesystem enumeration
order, because the code sorts only the yielded name list, not the `os.walk`
recursion itself. -/
def treeChunksV2 (Hf : Bytes → Str) (rel : Str) : FsTree → List Str
  | .node files dirs =>
    sortStrs (dirNames dirs) ++
      ((sortFiles files).map (fun f => [joinRel rel f.1, Hf f.2])).flatten ++
      forestChunksV2 Hf rel dirs

/-- Chunks of the subdirectories of one directory, visited in enumeration
order (the order `os.walk` recurses). -/
def forestChunksV2 (Hf : Bytes → Str) (rel : Str) : FsForest → List Str
  | .nil => []
  | .cons name t rest =>
    treeChunksV2 Hf (joinRel rel name) t ++ forestChunksV2 Hf rel rest
end

mutual
/-- The per-file digests `_get_dir_chunks_v1` yields, in walk order with the
files of each directory sorted by name. -/
def treeFilesV1 (Hf : Bytes → Str) : FsTree → List Str
  | .node files dirs =>
    (sortFiles files).map (fun f => Hf f.2) ++ forestFilesV1 Hf dirs

/-- Per-file digests of the subdirectories, in enumeration order. -/
def forestFilesV1 (Hf : Bytes → Str) : FsForest → List Str
  | .nil => []
  | .cons _ t rest => treeFilesV1 Hf t ++ forestFilesV1 Hf rest
end

/-- Model of `_get_dir_chunks_v2` from the root of the fingerprinted directory. -/
def get_dir_chunks_v2 (Hf : Bytes → Str) (t : FsTree) : List Str :=
  treeChunksV2 Hf [] t

/-- Model of `_get_dir_chunks_v1` from the root of the fingerprinted directory. -/
def get_dir_chunks_v1 (Hf : Bytes → Str) (t : FsTree) : List Str :=
  treeFilesV1 Hf t

/-- Constant `_LATEST_VERSION = 2`. -/
def LATEST_VERSION : Int := 2

/-- Model of `_pack`: f-string formatting of `checksum|version`. -/
def pack (checksum : Str) (version : Int) : Str :=
  checksum ++ '|' :: (toString version).data

/-- Model of `_unpack`: a signature without the separator is version 1; otherwise it is
split at every `|` and must have exactly two parts, the second parsed by
`int()` (a failed unpacking or parse raises `ValueError`). -/
def unpack (signature : Str) : Except PyErr (Str × Int) :=
  if '|' ∉ signature then .ok (signature, 1)
  else
    match pySplitChar '|' signature with
    | [checksum, version] =>
      match pyInt version with
      | some v => .ok (checksum, v)
      | none => .error .valueError
    | _ => .error .valueError

/-- Model of `_get_checksum`: raises `ValueError` when the path is not a directory
(modelled as `none`), dispatches on the version, raises `RuntimeError` on an
unknown version. `_hash` — SHA-1 over the concatenated UTF-8 chunk stream —
is the abstract parameter `Ht` applied to the concatenated chunks. -/
def get_checksum (d : Option FsTree) (version : Int) (Hf : Bytes → Str)
    (Ht : Str → Str) : Except PyErr Str :=
  match d with
  | none => .error .valueError
  | some t =>
    if version = 1 then .ok (Ht (sortStrs (get_dir_chunks_v1 Hf t)).flatten)
    else if version = 2 then .ok (Ht (get_dir_chunks_v2 Hf t).flatten)
    else .error .runtimeError

/-- Model of `signature.calculate`. -/
def calculate (d : Option FsTree) (Hf : Bytes → Str) (Ht : Str → Str) :
    Except PyErr Str := do
  let c ← get_checksum d LATEST_VERSION Hf Ht
  return pack c LATEST_VERSION

/-- Model of `signature.validate`. -/
def validate (d : Option FsTree) (signature : Str) (Hf : Bytes → Str)
    (Ht : Str → Str) : Except PyErr Bool := do
  let (checksum, version) ← unpack signature
  let c ← get_checksum d version Hf Ht
  return decide (checksum = c)

/-- The files of the root directory of a tree. -/
def topFiles : FsTree → List (Str × Bytes)
  | .node files _ => files

/-- The subdirectory forest of the root directory of a tree. -/
def topDirs : FsTree → FsForest
  | .node _ dirs => dirs

end Signature

namespace Toc

/-- A qualifying manifest file found by `_find_toc_files`: its path under the
scanned root directory, as a list of components (the last component is the
`.toc` file name, so the list is nonempty for any real file; `Path.parents`
of the absolute path adds a constant prefix for every file of one scan, which
shifts all sort keys equally and leaves the algorithm's behaviour unchanged,
so paths are modelled relative to the root). The compatibility-version gate
and the manifest-directive parsing of `_find_toc_files` happen before this
point; `find_addons` consumes the resulting sequence. -/
structure TocFile where
  components : List String
deriving DecidableEq

/-- Model of `toc.Addon`: the discovered add-on name and its root directory. -/
structure Addon where
  name : String
  path : List String
deriving DecidableEq

/-- Model of `pathlib.Path.stem` on a file name: the name without its final suffix
(a leading dot or a trailing dot does not start a suffix). -/
def stemChars (cs : List Char) : List Char :=
  let tailAfterDot := cs.reverse.takeWhile (fun d => d ≠ '.')
  if '.' ∈ cs.drop 1 ∧ tailAfterDot ≠ [] then
    cs.take (cs.length - tailAfterDot.length - 1)
  else cs

/-- The add-on name of a manifest: the stem of its file name. -/
def tocStem (t : TocFile) : String :=
  String.mk (stemChars (t.components.getLastD "").data)

/-- Model of `Path.parent` of the manifest: all components but the file name. -/
def parentDir (t : TocFile) : List String := t.components.dropLast

/-- Model of `Path.parents` of the manifest path: every proper prefix of its
components, from the root downwards (Python lists them nearest-first; only
membership is ever consulted, so the order is irrelevant). -/
def ancestorDirs (t : TocFile) : List (List String) :=
  (List.range t.components.length).map (fun k => t.components.take k)

/-- The `sort_key` of `find_addons`: `len(toc.path.parents)`, the number of
path components. -/
def sortKey (t : TocFile) : Nat := t.components.length

/-- Ordering of manifests by depth, as `sorted(..., key=sort_key)` uses. -/
def keyLe (a b : TocFile) : Prop := sortKey a ≤ sortKey b

instance : DecidableRel keyLe := fun a b => Nat.decLe (sortKey a) (sortKey b)

instance : IsTotal TocFile keyLe := ⟨fun _ _ => Nat.le_total _ _⟩

instance : IsTrans TocFile keyLe := ⟨fun _ _ _ => Nat.le_trans⟩

/-- The loop body of `find_addons`: in depth order, a manifest is kept only
when none of its ancestor directories has already been claimed; keeping it
claims its containing directory. -/
def findAddonsGo : List TocFile → List (List String) → List Addon
  | [], _ => []
  | t :: ts, claimed =>
    if ∀ p ∈ ancestorDirs t, p ∉ claimed then
      { name := tocStem t, path := parentDir t } ::
        findAddonsGo ts (claimed ++ [parentDir t])
    else findAddonsGo ts claimed

/-- Model of `toc.find_addons`: sorts the qualifying manifests by depth (Python's sort
is stable, as is insertion sort) and suppresses manifests inside an
already-claimed subtree. -/
def find_addons (tocs : List TocFile) : List Addon :=
  findAddonsGo (List.insertionSort keyLe tocs) []

/-- Predicate stating `a` is an ancestor-or-equal directory of `b` (component-list prefix). -/
def pathAbove (a b : List String) : Prop := b.take a.length = a

instance : ∀ a b, Decidable (pathAbove a b) := fun a b =>
  inferInstanceAs (Decidable (b.take a.length = a))

end Toc

namespace Mygit

/-- Model of `mygit.RemoteStateRequest`. -/
structure RemoteStateRequest where
  url : String
  branch : String
deriving DecidableEq

/-- Model of `mygit.RemoteState` exactly as declared in `mygit.py`: note that it has
no `error` field and that `head_commit_hex` is a plain (never-null) string. -/
structure RemoteState where
  url : String
  branch : String
  head_commit_hex : String
deriving DecidableEq

/-- One entry of `remote.ls_remotes()`: ref name, optional symbolic target,
and the object id at its tip. -/
structure Ref where
  name : String
  symref_target : Option String
  oid : String
deriving DecidableEq

/-- The names of the remotes created so far (`repo.remotes` keyed by name). -/
def remoteNames (acc : List (String × String)) : List String :=
  acc.map Prod.fst

/-- The remote-creation loop of `fetch_states`: one remote per distinct
`sha1(url)` name (the remote name is `nameOf url`, modelling the sha1
hexdigest of the UTF-8 encoded url), created only when `_has_remote` fails. -/
def buildRemotes (nameOf : String → String) :
    List RemoteStateRequest → List (String × String) → List (String × String)
  | [], acc => acc
  | r :: rs, acc =>
    if nameOf r.url ∈ remoteNames acc then buildRemotes nameOf rs acc
    else buildRemotes nameOf rs (acc ++ [(nameOf r.url, r.url)])

/-- Model of `remote_name_to_branches.setdefault(name, []).append(branch)`. -/
def addBranch : List (String × List String) → String → String →
    List (String × List String)
  | [], n, b => [(n, [b])]
  | p :: rest, n, b =>
    if p.1 = n then (p.1, p.2 ++ [b]) :: rest else p :: addBranch rest n b

/-- The branch-recording loop of `fetch_states`: every request's branch is
appended under its url's remote name. -/
def buildBranchMap (nameOf : String → String) :
    List RemoteStateRequest → List (String × List String) →
    List (String × List String)
  | [], m => m
  | r :: rs, m => buildBranchMap nameOf rs (addBranch m (nameOf r.url) r.branch)

/-- Lookup of `remote_name_to_branches[name]`. -/
def lookupBranches (m : List (String × List String)) (n : String) :
    List String :=
  match m.find? (fun p => p.1 == n) with
  | some p => p.2
  | none => []

/-- The ref-matching condition of `fetch_states`:
`ref['name'] == 'HEAD' and ref['symref_target'] == branch_ref
 or ref['name'] == branch_ref`. -/
def matchesBranch (branch : String) (ref : Ref) : Bool :=
  (ref.name == "HEAD" && ref.symref_target == some ("refs/heads/" ++ branch))
    || ref.name == ("refs/heads/" ++ branch)

/-- The inner `for ref in ls_result.refs: ... break` loop: the oid of the
first matching ref, if any; when no ref matches, nothing is appended for
that branch. -/
def findRefOid (refs : List Ref) (branch : String) : Option String :=
  (refs.find? (matchesBranch branch)).map Ref.oid

/-- The states appended for one remote's listing: one per requested branch
whose ref is found; a branch absent from the listing yields no state. -/
def branchStates (url : String) (branches : List String) (refs : List Ref) :
    List RemoteState :=
  branches.filterMap (fun b =>
    (findRefOid refs b).map
      (fun oid => { url := url, branch := b, head_commit_hex := oid }))

/-- The urls on which `fetch_states` performs a remote listing: one
`ls_remotes` call is submitted per created remote, before any result or
failure is observed. -/
def contactedUrls (nameOf : String → String)
    (requests : List RemoteStateRequest) : List String :=
  (buildRemotes nameOf requests []).map Prod.snd

/-- Model of `mygit.fetch_states`, parametric in the network operation `ls` (the
`remote.ls_remotes()` round trip, which may raise `GitError`). The thread
pool's `as_completed` order is unspecified; the model aggregates results in
remote-creation order. A listing failure re-raises at `future.result()`,
aborting `fetch_states` itself — modelled by `Except` propagation. -/
def fetch_states (nameOf : String → String)
    (ls : String → Except PyErr (List Ref))
    (requests : List RemoteStateRequest) : Except PyErr (List RemoteState) := do
  let remotes := buildRemotes nameOf requests []
  let bm := buildBranchMap nameOf requests []
  remotes.foldlM (fun states rem => do
    let refs ← ls rem.2
    return states ++ branchStates rem.2 (lookupBranches bm rem.1) refs) []

/-- Invariant of the remote list: every remote's name is the hash of its
url. -/
def coherent (nameOf : String → String) (acc : List (String × String)) :
    Prop :=
  ∀ p ∈ acc, p.1 = nameOf p.2

end Mygit

namespace Snapjaw

/-- Model of `snapjaw.AddonStatus`. -/
inductive AddonStatus where
  | Unknown
  | Modified
  | UpToDate
  | Outdated
  | Untracked
  | Missing
  | Error
deriving DecidableEq

/-- Model of `snapjaw.ConfigAddon`: the persisted record of one installed add-on.
The `released_at` and `installed_at` timestamps are carried through to the
status report unchanged and never branch any control flow, so they are
omitted from the model. -/
structure ConfigAddon where
  name : String
  url : String
  branch : String
  commit : String
  checksum : Option Str
deriving DecidableEq

/-- Model of `snapjaw.addon_key`: lower-cased add-on name (`str.lower()` lower-cases
character by character). -/
def addon_key (name : String) : String :=
  String.mk (name.data.map Char.toLower)

/-- Model of `snapjaw.AddonState` (without the pass-through timestamps). -/
structure AddonState where
  addon : String
  status : AddonStatus
  error : Option String
deriving DecidableEq

/-- Python dict assignment `m[k] = v` on an insertion-ordered mapping:
an existing key keeps its position and gets the new value, a new key is
appended. -/
def assocSet {α : Type} : List (String × α) → String → α → List (String × α)
  | [], k, v => [(k, v)]
  | p :: rest, k, v =>
    if p.1 = k then (k, v) :: rest else p :: assocSet rest k v

/-- Ordering of mapping entries by key (`sort_addons_dict` sorts by
`(key, value)`, but keys are unique so the value tie-breaker is never
consulted). -/
def entryKeyLe {α : Type} (a b : String × α) : Prop :=
  Signature.strLe a.1.data b.1.data

instance {α : Type} : DecidableRel (entryKeyLe (α := α)) := fun a b =>
  inferInstanceAs (Decidable (Signature.strLeb a.1.data b.1.data = true))

/-- Model of `snapjaw.sort_addons_dict`. -/
def sort_addons_dict {α : Type} (m : List (String × α)) : List (String × α) :=
  List.insertionSort entryKeyLe m

/-- The shape of a resolver result as the reconciliation chain of
`get_addon_states` (snapjaw.py lines 355-366) consumes it: an optional
`error` message and a nullable `head_commit_hex`. `mygit.RemoteState`, the
type `fetch_states` actually returns, lacks the `error` field — that
mismatch is modelled separately by `stateErrorAttr` below. -/
structure ResolvedState where
  url : String
  branch : String
  head_commit_hex : Option String
  error : Option String

/-- The per-record status decision chain of `get_addon_states`
(lines 355-366), applied to a resolver result of the shape the code
expects: endpoint error first, then the null-hash check, then fingerprint
verification, and only then the commit comparison. Passing a `None`
checksum into `signature.validate` would raise `TypeError` (`'|' in None`).
-/
def reconcileStatus (st : ResolvedState) (checksum : Option Str)
    (commit : String) (dir : Option Signature.FsTree) (Hf : Bytes → Str)
    (Ht : Str → Str) : Except PyErr AddonStatus := do
  if st.error.isSome then return .Error
  else
    match st.head_commit_hex with
    | none => return .Unknown
    | some h => do
      let chk ← match checksum with
        | none => Except.error PyErr.typeError
        | some c => Except.ok c
      let ok ← Signature.validate dir chk Hf Ht
      if ok = false then return .Modified
      else if h = commit then return .UpToDate
      else return .Outdated

/-- The attribute access `state.error` performed by `get_addon_states` on a
value of `mygit.RemoteState`. That dataclass declares only `url`, `branch`
and `head_commit_hex`, so the lookup raises `AttributeError`. -/
def stateErrorAttr (_s : Mygit.RemoteState) : Except PyErr (Option String) :=
  .error .attributeError

/-- The body of the state loop of `get_addon_states` for one returned state
and one matching config record, as executed against the `RemoteState` that
`mygit.fetch_states` actually returns: the very first step, reading
`state.error`, raises; the remaining chain (written out for fidelity) is
unreachable. The `state.head_commit_hex is None` test is always false there
because the field is a plain string. -/
def pass2Status (s : Mygit.RemoteState) (addon : ConfigAddon)
    (dir : Option Signature.FsTree) (Hf : Bytes → Str) (Ht : Str → Str) :
    Except PyErr (AddonStatus × Option String) := do
  let err ← stateErrorAttr s
  if err.isSome then return (.Error, err)
  else do
    let chk ← match addon.checksum with
      | none => Except.error PyErr.typeError
      | some c => Except.ok c
    let ok ← Signature.validate dir chk Hf Ht
    if ok = false then return (.Modified, none)
    else if s.head_commit_hex = addon.commit then return (.UpToDate, none)
    else return (.Outdated, none)

/-- Lookup of `os.path.join(addons_dir, name)` in the modelled add-ons
directory: the listing in enumeration order, each entry a directory (with
its tree) or a plain file (`none`). An absent name means the path does not
exist, which `signature._get_checksum` turns into `ValueError`. -/
def dirLookup (addonsDir : List (String × Option Signature.FsTree))
    (name : String) : Option Signature.FsTree :=
  match addonsDir.find? (fun p => p.1 == name) with
  | some p => p.2
  | none => none

/-- Model of `snapjaw.get_addon_states`: builds one request per config record, calls
the batch resolver once, then runs the three reconciliation passes (remote
states, untracked directories, missing records) and returns the mapping
sorted by key. The `url_to_branch_to_addons` grouping is modelled by
filtering the config (dict grouping preserves insertion order); pass 4
iterates the config in order (Python iterates a set, but every order yields
the same mapping and the result is sorted by key). -/
def get_addon_states (nameOf : String → String)
    (ls : String → Except PyErr (List Mygit.Ref))
    (config : List ConfigAddon)
    (addonsDir : List (String × Option Signature.FsTree))
    (Hf : Bytes → Str) (Ht : Str → Str) :
    Except PyErr (List (String × AddonState)) := do
  let requests := config.map
    (fun a => { url := a.url, branch := a.branch : Mygit.RemoteStateRequest })
  let states ← Mygit.fetch_states nameOf ls requests
  let m ← states.foldlM (fun m st =>
    (config.filter (fun a => a.url == st.url && a.branch == st.branch)).foldlM
      (fun m addon => do
        let r ← pass2Status st addon (dirLookup addonsDir addon.name) Hf Ht
        return assocSet m (addon_key addon.name)
          { addon := addon.name, status := r.1, error := r.2 })
      m) []
  let m := addonsDir.foldl (fun m e =>
    if e.2.isSome ∧ ¬ e.1.startsWith "Blizzard_" ∧
        addon_key e.1 ∉ m.map Prod.fst
    then m ++ [(addon_key e.1,
      { addon := e.1, status := .Untracked, error := none })]
    else m) m
  let m := config.foldl (fun m a =>
    if addon_key a.name ∉ m.map Prod.fst
    then m ++ [(addon_key a.name,
      { addon := addon_key a.name, status := .Missing, error := none })]
    else m) m
  return sort_addons_dict m

/-- The two config-related files of the add-ons directory:
`snapjaw.json` and `snapjaw.backup.json` (content or absent). -/
structure Fs where
  configFile : Option (List (String × ConfigAddon))
  backupFile : Option (List (String × ConfigAddon))
deriving DecidableEq

/-- Model of `Config.save`: re-sorts the mapping and writes it to the config file. -/
def saveConfig (cfg : List (String × ConfigAddon)) (fs : Fs) : Fs :=
  { fs with configFile := some (sort_addons_dict cfg) }

/-- The per-add-on loop of `install_addon` for one discovered source: each
planned add-on either copies successfully (flag `true`), upon which its
record is written into the in-memory config and `config.save()` persists it
immediately, or raises partway (flag `false`), aborting the loop. -/
def installLoop : List (ConfigAddon × Bool) → List (String × ConfigAddon) →
    Fs → Fs × Except PyErr (List (String × ConfigAddon))
  | [], cfg, fs => (fs, .ok cfg)
  | (a, copied) :: rest, cfg, fs =>
    if copied then
      let cfg := assocSet cfg (addon_key a.name) a
      installLoop rest cfg (saveConfig cfg fs)
    else (fs, .error .valueError)

/-- Model of `run_command` around a mutating install/update: back up the config file
when it exists, load it, run the command, save on success; on any exception
copy the backup file back over the config file (when a backup file exists)
and re-raise. -/
def run_command_install (initFs : Fs) (addons : List (ConfigAddon × Bool)) :
    Fs × Except PyErr Unit :=
  let fs := if initFs.configFile.isSome
    then { initFs with backupFile := initFs.configFile }
    else initFs
  let cfg := fs.configFile.getD []
  match installLoop addons cfg fs with
  | (fs, .ok cfg) => (saveConfig cfg fs, .ok ())
  | (fs, .error e) =>
    (if fs.backupFile.isSome then { fs with configFile := fs.backupFile }
     else fs, .error e)

end Snapjaw

namespace Instances

open Signature Snapjaw

/-- A concrete per-file digest whose value never matters for the statement
it appears in. -/
def hfZero : Bytes → Str := fun _ => []

/-- A concrete top-level digest with hex-like output (no `|`), standing in
for a SHA-1 hexdigest where only separator-freeness matters. -/
def htHex : Str → Str := fun _ => ['a', 'b']

/-- A concrete top-level digest used to make a stored fingerprint fail
verification. -/
def htOther : Str → Str := fun _ => ['y']

/-- An empty directory. -/
def emptyDir : FsTree := .node [] .nil

/-- Subdirectory `a` of the reordering scenario: one file `f` with byte 0. -/
def reorderSubA : FsTree := .node [(['f'], [0])] .nil

/-- Subdirectory `b` of the reordering scenario: one file `g` with byte 1. -/
def reorderSubB : FsTree := .node [(['g'], [1])] .nil

/-- The reordering scenario, first enumeration: the filesystem lists
subdirectory `a` before `b`. -/
def reorderTree1 : FsTree :=
  .node [] (.cons ['a'] reorderSubA (.cons ['b'] reorderSubB .nil))

/-- The reordering scenario, second enumeration: the same directory with the
siblings listed in the other order. -/
def reorderTree2 : FsTree :=
  .node [] (.cons ['b'] reorderSubB (.cons ['a'] reorderSubA .nil))

/-- Config record of add-on `AddOnA`, tracked from endpoint `u1`. -/
def recA : ConfigAddon :=
  { name := "AddOnA", url := "https://u1.example/a.git", branch := "main",
    commit := "aaaa", checksum := some ['d'] }

/-- Config record of add-on `AddOnB`, tracked from endpoint `u2`. -/
def recB : ConfigAddon :=
  { name := "AddOnB", url := "https://u2.example/b.git", branch := "main",
    commit := "bbbb", checksum := some ['d'] }

/-- A network in which the listing of endpoint `u1` fails outright while
endpoint `u2` answers normally with a `main` branch at commit `cccc`. -/
def lsOneDown : String → Except PyErr (List Mygit.Ref) := fun u =>
  if u = "https://u1.example/a.git" then .error (.gitError "failed to connect")
  else .ok [{ name := "HEAD", symref_target := some "refs/heads/main",
              oid := "cccc" },
            { name := "refs/heads/main", symref_target := none,
              oid := "cccc" }]

/-- The add-ons directory holding the installed trees of both add-ons. -/
def diskAB : List (String × Option FsTree) :=
  [("AddOnA", some emptyDir), ("AddOnB", some emptyDir)]

/-- Config record of add-on `Foo`, tracking branch `feature`. -/
def recFoo : ConfigAddon :=
  { name := "Foo", url := "https://u3.example/r.git", branch := "feature",
    commit := "aaaa", checksum := some ['d'] }

/-- A healthy remote whose ref listing has a `main` branch (also the
symbolic default) but no `feature` branch. -/
def lsNoFeature : String → Except PyErr (List Mygit.Ref) := fun _ =>
  .ok [{ name := "HEAD", symref_target := some "refs/heads/main",
         oid := "cccc" },
       { name := "refs/heads/main", symref_target := none, oid := "cccc" }]

/-- The add-ons directory holding the installed `Foo` tree. -/
def diskFoo : List (String × Option FsTree) := [("Foo", some emptyDir)]

/-- A qualifying manifest at the repository root: `X.toc`. -/
def shallowToc : Toc.TocFile := { components := ["X.toc"] }

/-- A qualifying manifest nested one directory deeper: `sub/Y.toc`. -/
def deepToc : Toc.TocFile := { components := ["sub", "Y.toc"] }

/-- A record already present in the config before the failing command. -/
def recOld : ConfigAddon :=
  { name := "Old", url := "https://u0.example/o.git", branch := "main",
    commit := "0000", checksum := some ['d'] }

/-- A request batch with two branches of one endpoint and one branch of a
second endpoint: three records, two distinct urls. -/
def reqsDup : List Mygit.RemoteStateRequest :=
  [{ url := "https://u1.example/a.git", branch := "main" },
   { url := "https://u1.example/a.git", branch := "dev" },
   { url := "https://u2.example/b.git", branch := "main" }]

end Instances

namespace Signature

theorem pySplitChar_ne_nil (sep : Char) (l : Str) : pySplitChar sep l ≠ [] := by
  induction l with
  | nil => simp [pySplitChar]
  | cons c cs ih =>
    simp only [pySplitChar]
    split
    · simp
    · cases h : pySplitChar sep cs with
      | nil => simp
      | cons g gs => simp

theorem pySplitChar_of_not_mem {sep : Char} {l : Str} (h : sep ∉ l) :
    pySplitChar sep l = [l] := by
  induction l with
  | nil => rfl
  | cons c cs ih =>
    have hc : ¬ c = sep := fun e => h (e ▸ List.mem_cons_self c cs)
    have hcs : sep ∉ cs := fun m => h (List.mem_cons_of_mem _ m)
    simp only [pySplitChar, if_neg hc, ih hcs]

theorem pySplitChar_append {sep : Char} {c r : Str} (h : sep ∉ c) :
    pySplitChar sep (c ++ sep :: r) = c :: pySplitChar sep r := by
  induction c with
  | nil => simp [pySplitChar]
  | cons a as ih =>
    have ha : ¬ a = sep := fun e => h (e ▸ List.mem_cons_self a as)
    have has : sep ∉ as := fun m => h (List.mem_cons_of_mem _ m)
    simp only [List.cons_append, pySplitChar, if_neg ha, List.append_eq]
    rw [ih has]

theorem pySplitChar_length (sep : Char) (l : Str) :
    (pySplitChar sep l).length = l.count sep + 1 := by
  induction l with
  | nil => simp [pySplitChar]
  | cons c cs ih =>
    simp only [pySplitChar]
    split
    · rename_i hc
      subst hc
      simp only [List.length_cons, ih, List.count_cons]
      simp
    · rename_i hc
      cases h : pySplitChar sep cs with
      | nil => exact absurd h (pySplitChar_ne_nil sep cs)
      | cons g gs =>
        rw [h] at ih
        simp only [List.length_cons] at ih ⊢
        rw [List.count_cons]
        simp only [ih]
        have : ¬ sep = c := fun e => hc e.symm
        simp [this, hc]

theorem unpack_no_sep {s : Str} (h : '|' ∉ s) : unpack s = .ok (s, 1) := by
  simp [unpack, h]

theorem unpack_pack2 {c : Str} (h : '|' ∉ c) :
    unpack (pack c 2) = .ok (c, 2) := by
  have hp : pack c 2 = c ++ '|' :: ['2'] := rfl
  have hm : '|' ∈ c ++ '|' :: ['2'] := by simp
  rw [hp, unpack, if_neg (not_not_intro hm), pySplitChar_append h]
  rfl

end Signature

namespace Signature

theorem get_checksum_two (t : FsTree) (Hf : Bytes → Str) (Ht : Str → Str) :
    get_checksum (some t) 2 Hf Ht = .ok (Ht (get_dir_chunks_v2 Hf t).flatten) := rfl

theorem get_checksum_one (t : FsTree) (Hf : Bytes → Str) (Ht : Str → Str) :
    get_checksum (some t) 1 Hf Ht =
      .ok (Ht (sortStrs (get_dir_chunks_v1 Hf t)).flatten) := rfl

theorem validate_of_unpack {d : Option FsTree} {s : Str} {Hf : Bytes → Str}
    {Ht : Str → Str} {c : Str} {v : Int} (h : unpack s = .ok (c, v)) :
    validate d s Hf Ht =
      (get_checksum d v Hf Ht).bind (fun cc => .ok (decide (c = cc))) := by
  simp only [validate, h, bind, Except.bind]
  cases get_checksum d v Hf Ht <;> rfl

end Signature

namespace Signature

theorem validate_of_unpack_err {d : Option FsTree} {s : Str}
    {Hf : Bytes → Str} {Ht : Str → Str} {e : PyErr}
    (h : unpack s = .error e) : validate d s Hf Ht = .error e := by
  simp [validate, h, bind, Except.bind]

theorem unpack_err_of_two_seps {s : Str} (h : 2 ≤ s.count '|') :
    unpack s = .error .valueError := by
  have hm : '|' ∈ s := List.count_pos_iff.mp (by omega)
  have hl := pySplitChar_length '|' s
  rw [unpack, if_neg (not_not_intro hm)]
  cases h3 : pySplitChar '|' s with
  | nil => exact absurd h3 (pySplitChar_ne_nil _ _)
  | cons a tl =>
    cases tl with
    | nil => rfl
    | cons b tl2 =>
      cases tl2 with
      | nil =>
        exfalso
        rw [h3] at hl
        simp only [List.length_cons, List.length_nil] at hl
        omega
      | cons e rest => rfl

theorem unpack_err_of_bad_int {s a b : Str}
    (h3 : pySplitChar '|' s = [a, b]) (hb : pyInt b = none) :
    unpack s = .error .valueError := by
  have hl := pySplitChar_length '|' s
  rw [h3] at hl
  simp only [List.length_cons, List.length_nil] at hl
  have hm : '|' ∈ s := List.count_pos_iff.mp (by omega)
  rw [unpack, if_neg (not_not_intro hm), h3]
  change (match pyInt b with
    | some v => Except.ok (a, v)
    | none => Except.error PyErr.valueError) = Except.error PyErr.valueError
  rw [hb]

theorem unpack_ok_shape {s c : Str} {v : Int} (h : unpack s = .ok (c, v)) :
    s.count '|' = 0 ∨
      ∃ a b, pySplitChar '|' s = [a, b] ∧ pyInt b = some v ∧
        s.count '|' = 1 := by
  by_cases hm : '|' ∈ s
  · right
    rw [unpack, if_neg (not_not_intro hm)] at h
    have hl := pySplitChar_length '|' s
    cases h3 : pySplitChar '|' s with
    | nil => exact absurd h3 (pySplitChar_ne_nil _ _)
    | cons a tl =>
      cases tl with
      | nil => rw [h3] at h; exact absurd h (by simp)
      | cons b tl2 =>
        cases tl2 with
        | nil =>
          rw [h3] at h hl
          simp only [List.length_cons, List.length_nil] at hl
          change (match pyInt b with
            | some v2 => Except.ok (a, v2)
            | none => Except.error PyErr.valueError) = Except.ok (c, v) at h
          cases hpi : pyInt b with
          | none => rw [hpi] at h; exact absurd h (by simp)
          | some v2 =>
            rw [hpi] at h
            simp only [Except.ok.injEq, Prod.mk.injEq] at h
            exact ⟨a, b, rfl, by rw [hpi, h.2], by omega⟩
        | cons e rest => rw [h3] at h; exact absurd h (by simp)
  · left
    exact List.count_eq_zero.mpr hm

end Signature

open Signature in
/-- Claim C5: for every directory tree, validating the freshly computed
fingerprint succeeds: the computed signature carries the latest version tag
2, verification unpacks that tag, recomputes the version-2 checksum over the
same tree and compares the digests for exact equality. Stated for every
per-file digest `Hf` and every top-level digest `Ht` whose output is free of
the `|` separator (as a hexdigest is). -/
theorem c5_fingerprint_round_trip (t : FsTree) (Hf : Bytes → Str)
    (Ht : Str → Str) (hhex : ∀ s, '|' ∉ Ht s) :
    calculate (some t) Hf Ht =
        .ok (pack (Ht (get_dir_chunks_v2 Hf t).flatten) 2) ∧
      unpack (pack (Ht (get_dir_chunks_v2 Hf t).flatten) 2) =
        .ok (Ht (get_dir_chunks_v2 Hf t).flatten, 2) ∧
      validate (some t) (pack (Ht (get_dir_chunks_v2 Hf t).flatten) 2) Hf Ht =
        .ok true := by
  refine ⟨rfl, unpack_pack2 (hhex _), ?_⟩
  rw [validate_of_unpack (unpack_pack2 (hhex _)), get_checksum_two]
  simp [Except.bind]

open Signature in
/-- Witness for C5 at a concrete tree and concrete digest functions. -/
theorem c5_fingerprint_round_trip_witness :
    validate (some Instances.emptyDir)
      (pack (Instances.htHex
        (get_dir_chunks_v2 Instances.hfZero Instances.emptyDir).flatten) 2)
      Instances.hfZero Instances.htHex = .ok true :=
  (c5_fingerprint_round_trip Instances.emptyDir Instances.hfZero
    Instances.htHex (by intro s; simp [Instances.htHex])).2.2

open Signature in
/-- Claim C7: a signature without the `|` separator is verified as version 1,
against the legacy checksum (the sorted list of per-file content digests);
in particular a bare version-1 fingerprint of an unchanged tree validates. -/
theorem c7_bare_signature_validates_as_v1 (t : FsTree) (Hf : Bytes → Str)
    (Ht : Str → Str) (hhex : ∀ s, '|' ∉ Ht s) :
    (∀ s : Str, '|' ∉ s →
      validate (some t) s Hf Ht =
        .ok (decide (s = Ht (sortStrs (get_dir_chunks_v1 Hf t)).flatten))) ∧
    validate (some t) (Ht (sortStrs (get_dir_chunks_v1 Hf t)).flatten) Hf Ht =
      .ok true := by
  have h1 : ∀ s : Str, '|' ∉ s →
      validate (some t) s Hf Ht =
        .ok (decide (s = Ht (sortStrs (get_dir_chunks_v1 Hf t)).flatten)) := by
    intro s hs
    rw [validate_of_unpack (unpack_no_sep hs), get_checksum_one]
    rfl
  exact ⟨h1, by rw [h1 _ (hhex _)]; simp⟩

open Signature in
/-- Witness for C7 at a concrete tree and concrete digest functions. -/
theorem c7_bare_signature_validates_as_v1_witness :
    validate (some Instances.emptyDir)
      (Instances.htHex
        (sortStrs (get_dir_chunks_v1 Instances.hfZero Instances.emptyDir)).flatten)
      Instances.hfZero Instances.htHex = .ok true :=
  (c7_bare_signature_validates_as_v1 Instances.emptyDir Instances.hfZero
    Instances.htHex (by intro s; simp [Instances.htHex])).2

open Signature in
/-- Claim C10: `validate` is not total over arbitrary signatures — a
signature with two or more separators, or one separator followed by a
segment `int()` rejects, raises `ValueError` instead of returning a boolean
(whatever the directory argument); and whenever `validate` does return a
boolean, the signature had no separator or exactly one separator followed by
an integer segment. -/
theorem c10_validate_totality_shape (d : Option FsTree) (s : Str)
    (Hf : Bytes → Str) (Ht : Str → Str) :
    (2 ≤ s.count '|' → validate d s Hf Ht = .error .valueError) ∧
    (∀ a b, pySplitChar '|' s = [a, b] → pyInt b = none →
      validate d s Hf Ht = .error .valueError) ∧
    ∀ bl, validate d s Hf Ht = .ok bl →
      s.count '|' = 0 ∨
        ∃ a b v, pySplitChar '|' s = [a, b] ∧ pyInt b = some v ∧
          s.count '|' = 1 := by
  refine ⟨fun h => validate_of_unpack_err (unpack_err_of_two_seps h),
    fun a b h3 hb => validate_of_unpack_err (unpack_err_of_bad_int h3 hb), ?_⟩
  intro bl h
  cases hu : unpack s with
  | error e => rw [validate_of_unpack_err hu] at h; exact absurd h (by simp)
  | ok p =>
    obtain ⟨c, v⟩ := p
    rcases unpack_ok_shape hu with h0 | ⟨a, b, h3, hpi, h1⟩
    · exact Or.inl h0
    · exact Or.inr ⟨a, b, v, h3, hpi, h1⟩

open Signature in
/-- Witness for C10: a two-separator signature makes `validate` raise. -/
theorem c10_validate_totality_shape_witness :
    2 ≤ (['a', '|', 'b', '|', 'c'] : Str).count '|' ∧
    validate none ['a', '|', 'b', '|', 'c'] Instances.hfZero Instances.htHex =
      .error .valueError :=
  ⟨by decide,
    (c10_validate_totality_shape none ['a', '|', 'b', '|', 'c']
      Instances.hfZero Instances.htHex).1 (by decide)⟩

open Signature in
/-- Claim C6 (code bug): the version-2 chunk stream is not independent of
the order in which the filesystem enumerates sibling directories. The two
trees below are the same logical tree — same files, sibling subdirectories
a permutation of each other with identical subtrees — yet the concatenated
byte streams fed to the digest differ for every per-file digest `Hf`, so the
two computations hash different inputs: `_get_dir_chunks_v2` sorts only the
yielded name list, while `os.walk` recurses in enumeration order. -/
theorem c6_v2_chunks_depend_on_enumeration_order :
    (forestList (topDirs Instances.reorderTree1)).Perm
        (forestList (topDirs Instances.reorderTree2)) ∧
    topFiles Instances.reorderTree1 = topFiles Instances.reorderTree2 ∧
    ∀ Hf : Bytes → Str,
      (get_dir_chunks_v2 Hf Instances.reorderTree1).flatten ≠
        (get_dir_chunks_v2 Hf Instances.reorderTree2).flatten := by
  refine ⟨List.Perm.swap _ _ _, rfl, ?_⟩
  intro Hf h
  simp [Instances.reorderTree1, Instances.reorderTree2, Instances.reorderSubA,
    Instances.reorderSubB, get_dir_chunks_v2, treeChunksV2, forestChunksV2,
    sortStrs, sortFiles, dirNames, joinRel, strLe, strLeb] at h

/-- The reconciliation chain for a resolved state with no endpoint error and
a non-null head hash: it runs fingerprint verification and branches on its
result before any commit comparison. -/
theorem reconcileStatus_resolved (st : Snapjaw.ResolvedState) (chk : Str)
    (commit : String) (dir : Option Signature.FsTree) (Hf : Bytes → Str)
    (Ht : Str → Str) (h : String) (he : st.error = none)
    (hh : st.head_commit_hex = some h) :
    Snapjaw.reconcileStatus st (some chk) commit dir Hf Ht =
      (Signature.validate dir chk Hf Ht).bind (fun ok =>
        if ok = false then .ok .Modified
        else if h = commit then .ok .UpToDate else .ok .Outdated) := by
  simp only [Snapjaw.reconcileStatus, he, hh, Option.isSome_none,
    Bool.false_eq_true, if_false, bind, Except.bind]
  cases Signature.validate dir chk Hf Ht <;> rfl

/-- Claim C3: for a config record whose (url, branch) resolved to a non-null
head hash, a failing fingerprint verification forces status `modified` —
independently of the stored commit, in particular when it equals the
resolved head — and a status of `up-to-date` or `outdated` can only arise
when the fingerprint verifies. -/
theorem c3_modified_takes_precedence (st : Snapjaw.ResolvedState) (chk : Str)
    (commit : String) (dir : Option Signature.FsTree) (Hf : Bytes → Str)
    (Ht : Str → Str) (h : String) (he : st.error = none)
    (hh : st.head_commit_hex = some h) :
    (Signature.validate dir chk Hf Ht = .ok false →
      Snapjaw.reconcileStatus st (some chk) commit dir Hf Ht =
        .ok .Modified) ∧
    ∀ out, Snapjaw.reconcileStatus st (some chk) commit dir Hf Ht = .ok out →
      (out = .UpToDate ∨ out = .Outdated) →
      Signature.validate dir chk Hf Ht = .ok true := by
  constructor
  · intro hv
    rw [reconcileStatus_resolved st chk commit dir Hf Ht h he hh, hv]
    rfl
  · intro out hout hcase
    rw [reconcileStatus_resolved st chk commit dir Hf Ht h he hh] at hout
    cases hv : Signature.validate dir chk Hf Ht with
    | error e => rw [hv] at hout; exact absurd hout (by simp [Except.bind])
    | ok bv =>
      cases bv with
      | true => rfl
      | false =>
        rw [hv] at hout
        have : out = Snapjaw.AddonStatus.Modified := by
          simpa [Except.bind] using hout.symm
        rcases hcase with hc | hc <;> simp [this] at hc

/-- Witness for C3: a record whose stored commit equals the resolved head
but whose stored fingerprint fails verification reconciles to `modified`. -/
theorem c3_modified_takes_precedence_witness :
    Signature.validate (some Instances.emptyDir) ['x'] Instances.hfZero
        Instances.htOther = .ok false ∧
    Snapjaw.reconcileStatus
        { url := "u", branch := "b", head_commit_hex := some "h",
          error := none }
        (some ['x']) "h" (some Instances.emptyDir) Instances.hfZero
        Instances.htOther = .ok .Modified :=
  ⟨rfl,
    (c3_modified_takes_precedence
      { url := "u", branch := "b", head_commit_hex := some "h", error := none }
      ['x'] "h" (some Instances.emptyDir) Instances.hfZero Instances.htOther
      "h" rfl rfl).1 rfl⟩

/-- Claim C1 (code bug): a batch in which one endpoint's remote listing
fails outright does not produce per-request error results — `fetch_states`
re-raises the failure, so the whole `get_addon_states` call (and with it the
status/update command) aborts, and the healthy endpoint `u2` is never
reconciled. (`mygit.RemoteState` does not even declare the `error` field the
reconciliation chain reads.) -/
theorem c1_endpoint_failure_aborts_status :
    Snapjaw.get_addon_states id Instances.lsOneDown
        [Instances.recA, Instances.recB] Instances.diskAB Instances.hfZero
        Instances.htHex =
      .error (.gitError "failed to connect") ∧
    Mygit.fetch_states id Instances.lsOneDown
        [{ url := Instances.recA.url, branch := Instances.recA.branch },
         { url := Instances.recB.url, branch := Instances.recB.branch }] =
      .error (.gitError "failed to connect") := by
  constructor <;> rfl

/-- Claim C2 (code bug): a config record whose branch is absent from the
remote's ref listing (and is not the symbolic default) gets no result at all
from `fetch_states` — not a null-hash result — so reconciliation never
reaches its `unknown` branch: with the add-on's directory present on disk
the record reports `untracked`. -/
theorem c2_missing_branch_reports_untracked :
    Mygit.fetch_states id Instances.lsNoFeature
        [{ url := Instances.recFoo.url, branch := Instances.recFoo.branch }] =
      .ok [] ∧
    Snapjaw.get_addon_states id Instances.lsNoFeature [Instances.recFoo]
        Instances.diskFoo Instances.hfZero Instances.htHex =
      .ok [("foo", { addon := "Foo", status := .Untracked, error := none })] := by
  constructor <;> rfl

/-- Claim C9 (counterexample): an update that installs and saves `AddOnA`
and then fails does not leave `AddOnA`'s record in the persisted config —
`run_command`'s exception handler copies the backup taken at command start
back over the config file, so the file again holds exactly the pre-command
record. -/
theorem c9_backup_restore_reverts_partial_saves :
    (Snapjaw.run_command_install
        { configFile := some [("old", Instances.recOld)], backupFile := none }
        [(Instances.recA, true), (Instances.recB, false)]).2 =
      .error .valueError ∧
    (Snapjaw.run_command_install
        { configFile := some [("old", Instances.recOld)], backupFile := none }
        [(Instances.recA, true), (Instances.recB, false)]).1.configFile =
      some [("old", Instances.recOld)] ∧
    Snapjaw.addon_key Instances.recA.name ∉
      (((Snapjaw.run_command_install
          { configFile := some [("old", Instances.recOld)], backupFile := none }
          [(Instances.recA, true), (Instances.recB, false)]).1.configFile).getD
        []).map Prod.fst := by
  refine ⟨rfl, rfl, ?_⟩
  decide

/-- Claim C9 (amended): the record saved for an earlier add-on survives the
later failure only when there is no backup file to restore — e.g. on a first
run, when no config file existed at command start; when a config file (and
hence a backup) exists, the exception handler restores the pre-command
content, discarding the records saved during the command. -/
theorem c9_partial_saves_persist_without_backup
    (A B : Snapjaw.ConfigAddon) :
    (Snapjaw.run_command_install { configFile := none, backupFile := none }
        [(A, true), (B, false)]).1.configFile =
      some [(Snapjaw.addon_key A.name, A)] ∧
    (Snapjaw.run_command_install { configFile := none, backupFile := none }
        [(A, true), (B, false)]).2 = .error .valueError ∧
    ∀ initCfg : List (String × Snapjaw.ConfigAddon),
      (Snapjaw.run_command_install
          { configFile := some initCfg, backupFile := none }
          [(A, true), (B, false)]).1.configFile = some initCfg :=
  ⟨rfl, rfl, fun _ => rfl⟩

namespace Mygit

theorem coherent_push {nameOf : String → String} {acc} (h : coherent nameOf acc)
    (u : String) : coherent nameOf (acc ++ [(nameOf u, u)]) := by
  intro p hp
  rcases List.mem_append.mp hp with hp | hp
  · exact h p hp
  · simp only [List.mem_singleton] at hp
    subst hp
    rfl

theorem buildRemotes_coherent {nameOf : String → String}
    {rs : List RemoteStateRequest} {acc} (h : coherent nameOf acc) :
    coherent nameOf (buildRemotes nameOf rs acc) := by
  induction rs generalizing acc with
  | nil => exact h
  | cons r rs ih =>
    simp only [buildRemotes]
    split
    · exact ih h
    · exact ih (coherent_push h r.url)

theorem buildRemotes_sub {nameOf : String → String}
    {rs : List RemoteStateRequest} {acc} {p} (h : p ∈ acc) :
    p ∈ buildRemotes nameOf rs acc := by
  induction rs generalizing acc with
  | nil => exact h
  | cons r rs ih =>
    simp only [buildRemotes]
    split
    · exact ih h
    · exact ih (List.mem_append_left _ h)

theorem buildRemotes_names_nodup {nameOf : String → String}
    {rs : List RemoteStateRequest} {acc} (h : (remoteNames acc).Nodup) :
    (remoteNames (buildRemotes nameOf rs acc)).Nodup := by
  induction rs generalizing acc with
  | nil => exact h
  | cons r rs ih =>
    simp only [buildRemotes]
    split
    · exact ih h
    · rename_i hmem
      refine ih ?_
      simp only [remoteNames, List.map_append, List.map_cons, List.map_nil]
      rw [List.nodup_append]
      refine ⟨h, List.nodup_singleton _, ?_⟩
      simp only [List.disjoint_singleton]
      exact hmem

theorem buildRemotes_mem_url {nameOf : String → String}
    (inj : Function.Injective nameOf) {rs : List RemoteStateRequest} {acc}
    (hcoh : coherent nameOf acc) {r} (hr : r ∈ rs) :
    r.url ∈ (buildRemotes nameOf rs acc).map Prod.snd := by
  induction rs generalizing acc with
  | nil => cases hr
  | cons r0 rs ih =>
    simp only [buildRemotes]
    rcases List.mem_cons.mp hr with heq | htail
    · subst heq
      split
      · rename_i hmem
        simp only [remoteNames] at hmem
        obtain ⟨p, hp, hfst⟩ := List.mem_map.mp hmem
        have hn : nameOf p.2 = nameOf r.url := by
          rw [← hcoh p hp, hfst]
        exact List.mem_map.mpr ⟨p, buildRemotes_sub hp, inj hn⟩
      · refine List.mem_map.mpr ⟨(nameOf r.url, r.url), ?_, rfl⟩
        exact buildRemotes_sub (List.mem_append_right _ (List.mem_singleton.mpr rfl))
    · split
      · exact ih hcoh htail
      · exact ih (coherent_push hcoh r0.url) htail

theorem buildRemotes_url_src {nameOf : String → String}
    {rs : List RemoteStateRequest} {acc} {u}
    (h : u ∈ (buildRemotes nameOf rs acc).map Prod.snd) :
    u ∈ acc.map Prod.snd ∨ ∃ r ∈ rs, r.url = u := by
  induction rs generalizing acc with
  | nil => exact Or.inl h
  | cons r rs ih =>
    simp only [buildRemotes] at h
    by_cases hmem : nameOf r.url ∈ remoteNames acc
    · rw [if_pos hmem] at h
      rcases ih h with h' | ⟨r', hr', he⟩
      · exact Or.inl h'
      · exact Or.inr ⟨r', List.mem_cons_of_mem _ hr', he⟩
    · rw [if_neg hmem] at h
      rcases ih h with h' | ⟨r', hr', he⟩
      · simp only [List.map_append, List.map_cons, List.map_nil,
          List.mem_append, List.mem_singleton] at h'
        rcases h' with h' | h'
        · exact Or.inl h'
        · exact Or.inr ⟨r, List.mem_cons_self _ _, h'.symm⟩
      · exact Or.inr ⟨r', List.mem_cons_of_mem _ hr', he⟩

theorem contactedUrls_nodup (nameOf : String → String)
    (rs : List RemoteStateRequest) :
    (contactedUrls nameOf rs).Nodup := by
  have hcoh : coherent nameOf (buildRemotes nameOf rs []) :=
    buildRemotes_coherent (by intro p hp; cases hp)
  have hn : (remoteNames (buildRemotes nameOf rs [])).Nodup :=
    buildRemotes_names_nodup (by simp [remoteNames])
  have hmap : remoteNames (buildRemotes nameOf rs []) =
      ((buildRemotes nameOf rs []).map Prod.snd).map nameOf := by
    simp only [remoteNames, List.map_map]
    exact List.map_congr_left (fun p hp => hcoh p hp)
  rw [hmap] at hn
  exact hn.of_map

theorem addBranch_self {m : List (String × List String)} {n b : String} :
    b ∈ lookupBranches (addBranch m n b) n := by
  induction m with
  | nil => simp [addBranch, lookupBranches, List.find?]
  | cons p rest ih =>
    simp only [addBranch]
    split
    · rename_i hpn
      simp [lookupBranches, List.find?, hpn]
    · rename_i hpn
      have hbeq : (p.1 == n) = false := beq_eq_false_iff_ne.mpr hpn
      simpa [lookupBranches, List.find?, hbeq] using ih

theorem lookupBranches_addBranch {m : List (String × List String)}
    {k n b x : String} (h : x ∈ lookupBranches m k) :
    x ∈ lookupBranches (addBranch m n b) k := by
  induction m with
  | nil => simp [lookupBranches, List.find?] at h
  | cons p rest ih =>
    by_cases hpk : p.1 = k
    · have hbeq : (p.1 == k) = true := beq_iff_eq.mpr hpk
      simp only [lookupBranches, List.find?, hbeq] at h
      by_cases hpn : p.1 = n
      · simp [addBranch, hpn, lookupBranches, List.find?, hpn ▸ hbeq]
        exact Or.inl h
      · have hbn : (p.1 == n) = false := beq_eq_false_iff_ne.mpr hpn
        simp only [addBranch, if_neg hpn, lookupBranches, List.find?, hbeq]
        exact h
    · have hbeq : (p.1 == k) = false := beq_eq_false_iff_ne.mpr hpk
      simp only [lookupBranches, List.find?, hbeq] at h
      by_cases hpn : p.1 = n
      · simp only [addBranch, if_pos hpn, lookupBranches, List.find?, hbeq]
        exact h
      · simp only [addBranch, if_neg hpn, lookupBranches, List.find?, hbeq]
        exact ih h

theorem buildBranchMap_preserve {nameOf : String → String}
    {rs : List RemoteStateRequest} {m} {k x : String}
    (h : x ∈ lookupBranches m k) :
    x ∈ lookupBranches (buildBranchMap nameOf rs m) k := by
  induction rs generalizing m with
  | nil => exact h
  | cons r rs ih => exact ih (lookupBranches_addBranch h)

theorem buildBranchMap_mem {nameOf : String → String}
    {rs : List RemoteStateRequest} {m} {r} (hr : r ∈ rs) :
    r.branch ∈ lookupBranches (buildBranchMap nameOf rs m) (nameOf r.url) := by
  induction rs generalizing m with
  | nil => cases hr
  | cons r0 rs ih =>
    simp only [buildBranchMap]
    rcases List.mem_cons.mp hr with heq | htail
    · subst heq
      exact buildBranchMap_preserve addBranch_self
    · exact ih htail

end Mygit

/-- Claim C4: in every request batch, each distinct repository url is
contacted exactly once — the listing calls are issued one per created
remote, the contacted urls are duplicate-free, every request's url is among
them, every contacted url comes from some request, and every request's
branch is recorded under its url's remote name, to be extracted from that
single listing. Stated under injectivity of the remote-naming hash (sha1
hexdigests of distinct urls are distinct). -/
theorem c4_each_endpoint_contacted_once (nameOf : String → String)
    (requests : List Mygit.RemoteStateRequest)
    (inj : Function.Injective nameOf) :
    (Mygit.contactedUrls nameOf requests).Nodup ∧
    (∀ r ∈ requests, r.url ∈ Mygit.contactedUrls nameOf requests) ∧
    (∀ u ∈ Mygit.contactedUrls nameOf requests, ∃ r ∈ requests, r.url = u) ∧
    ∀ r ∈ requests, r.branch ∈
      Mygit.lookupBranches (Mygit.buildBranchMap nameOf requests [])
        (nameOf r.url) := by
  refine ⟨Mygit.contactedUrls_nodup nameOf requests, ?_, ?_, ?_⟩
  · intro r hr
    exact Mygit.buildRemotes_mem_url inj (by intro p hp; cases hp) hr
  · intro u hu
    rcases Mygit.buildRemotes_url_src hu with h | h
    · simp at h
    · exact h
  · intro r hr
    exact Mygit.buildBranchMap_mem hr

/-- Witness for C4 at a concrete batch: three requests over two distinct
urls are answered by exactly the two urls, each once. -/
theorem c4_each_endpoint_contacted_once_witness :
    Mygit.contactedUrls id Instances.reqsDup =
      ["https://u1.example/a.git", "https://u2.example/b.git"] ∧
    (Mygit.contactedUrls id Instances.reqsDup).Nodup ∧
    ∀ r ∈ Instances.reqsDup, r.url ∈ Mygit.contactedUrls id Instances.reqsDup :=
  ⟨rfl,
    (c4_each_endpoint_contacted_once id Instances.reqsDup
      (fun _ _ h => h)).1,
    (c4_each_endpoint_contacted_once id Instances.reqsDup
      (fun _ _ h => h)).2.1⟩

namespace Toc

theorem pathAbove_le_length {a b : List String} (h : pathAbove a b) :
    a.length ≤ b.length := by
  have h2 : min a.length b.length = a.length := by
    simpa using congrArg List.length h
  omega

theorem above_parent_mem_ancestors {t : TocFile} (hne : t.components ≠ [])
    {c : List String} (h : pathAbove c (parentDir t)) : c ∈ ancestorDirs t := by
  have hpos : 0 < t.components.length := List.length_pos.mpr hne
  have hpd : parentDir t = t.components.take (t.components.length - 1) :=
    List.dropLast_eq_take t.components
  have hlen : c.length ≤ t.components.length - 1 := by
    have h1 := pathAbove_le_length h
    rw [hpd, List.length_take] at h1
    omega
  have hc : t.components.take c.length = c := by
    have h2 := h
    rw [pathAbove, hpd, List.take_take, min_eq_left hlen] at h2
    exact h2
  refine List.mem_map.mpr ⟨c.length, List.mem_range.mpr (by omega), hc⟩

theorem go_from_input {ts : List TocFile} {claimed} {a : Addon}
    (ha : a ∈ findAddonsGo ts claimed) :
    ∃ t ∈ ts, a = { name := tocStem t, path := parentDir t } := by
  induction ts generalizing claimed with
  | nil => cases ha
  | cons t ts ih =>
    simp only [findAddonsGo] at ha
    split at ha
    · rcases List.mem_cons.mp ha with heq | htail
      · exact ⟨t, List.mem_cons_self _ _, heq⟩
      · obtain ⟨t', ht', he⟩ := ih htail
        exact ⟨t', List.mem_cons_of_mem _ ht', he⟩
    · obtain ⟨t', ht', he⟩ := ih ha
      exact ⟨t', List.mem_cons_of_mem _ ht', he⟩

theorem go_avoids {ts : List TocFile} (hne : ∀ t ∈ ts, t.components ≠ [])
    {claimed} {a : Addon} (ha : a ∈ findAddonsGo ts claimed) :
    ∀ c ∈ claimed, ¬ pathAbove c a.path := by
  induction ts generalizing claimed with
  | nil => cases ha
  | cons t ts ih =>
    have hnet : t.components ≠ [] := hne t (List.mem_cons_self _ _)
    have hnets : ∀ t' ∈ ts, t'.components ≠ [] :=
      fun t' ht' => hne t' (List.mem_cons_of_mem _ ht')
    simp only [findAddonsGo] at ha
    split at ha
    · rename_i hcond
      rcases List.mem_cons.mp ha with heq | htail
      · subst heq
        intro c hc habove
        exact hcond c (above_parent_mem_ancestors hnet habove) hc
      · intro c hc
        exact ih hnets htail c (List.mem_append_left _ hc)
    · exact ih hnets ha

theorem go_pairwise_forward {ts : List TocFile}
    (hne : ∀ t ∈ ts, t.components ≠ []) (claimed : List (List String)) :
    (findAddonsGo ts claimed).Pairwise
      (fun x y => ¬ pathAbove x.path y.path) := by
  induction ts generalizing claimed with
  | nil => exact List.Pairwise.nil
  | cons t ts ih =>
    have hnets : ∀ t' ∈ ts, t'.components ≠ [] :=
      fun t' ht' => hne t' (List.mem_cons_of_mem _ ht')
    simp only [findAddonsGo]
    split
    · refine List.Pairwise.cons ?_ (ih hnets _)
      intro y hy
      exact go_avoids hnets hy (parentDir t)
        (List.mem_append_right _ (List.mem_singleton.mpr rfl))
    · exact ih hnets _

theorem go_lengths {ts : List TocFile} (hs : List.Sorted keyLe ts)
    (claimed : List (List String)) :
    (findAddonsGo ts claimed).Pairwise
      (fun x y => x.path.length ≤ y.path.length) := by
  induction ts generalizing claimed with
  | nil => exact List.Pairwise.nil
  | cons t ts ih =>
    rw [List.sorted_cons] at hs
    obtain ⟨hall, hrest⟩ := hs
    simp only [findAddonsGo]
    split
    · refine List.Pairwise.cons ?_ (ih hrest _)
      intro y hy
      obtain ⟨t', ht', he⟩ := go_from_input hy
      have hk := hall t' ht'
      rw [keyLe, sortKey, sortKey] at hk
      rw [he]
      simp only [parentDir, List.length_dropLast]
      omega
    · exact ih hrest _

end Toc

/-- Claim C8: for every batch of qualifying manifests (each a real file, so
its path has at least one component), no add-on root returned by
`find_addons` lies inside (or equals) another returned root, in either
direction; and in the concrete nested scenario — a root-level manifest and
one in a subdirectory — only the shallower one is returned. -/
theorem c8_nested_addon_roots_suppressed :
    (∀ tocs : List Toc.TocFile, (∀ t ∈ tocs, t.components ≠ []) →
      (Toc.find_addons tocs).Pairwise (fun x y =>
        ¬ Toc.pathAbove x.path y.path ∧ ¬ Toc.pathAbove y.path x.path)) ∧
    Toc.find_addons [Instances.deepToc, Instances.shallowToc] =
      [{ name := "X", path := [] }] := by
  constructor
  · intro tocs hne
    rw [Toc.find_addons]
    have hne' : ∀ t ∈ List.insertionSort Toc.keyLe tocs, t.components ≠ [] :=
      fun t ht =>
        hne t ((List.perm_insertionSort Toc.keyLe tocs).mem_iff.mp ht)
    have h1 := Toc.go_pairwise_forward hne' []
    have h2 := Toc.go_lengths (List.sorted_insertionSort Toc.keyLe tocs) []
    refine (h1.and h2).imp ?_
    rintro x y ⟨hxy, hlen⟩
    refine ⟨hxy, ?_⟩
    intro hyx
    have hle := Toc.pathAbove_le_length hyx
    have heq : y.path.length = x.path.length := le_antisymm hle hlen
    rw [Toc.pathAbove, heq, List.take_length] at hyx
    refine hxy ?_
    rw [Toc.pathAbove, ← hyx, List.take_length]
  · rfl

/-- Witness for C8: the non-nesting property instantiated at the concrete
nested-manifest batch, with the nonemptiness hypothesis discharged. -/
theorem c8_nested_addon_roots_suppressed_witness :
    (Toc.find_addons [Instances.deepToc, Instances.shallowToc]).Pairwise
      (fun x y =>
        ¬ Toc.pathAbove x.path y.path ∧ ¬ Toc.pathAbove y.path x.path) :=
  c8_nested_addon_roots_suppressed.1 [Instances.deepToc, Instances.shallowToc]
    (by decide)
